import Mathlib

/-!
Verification of the BitSerializer pack-and-push release orchestrator
(`pack-push.py`) against its specification.

The script is a linear sequence of shell-outs wrapped in a text menu.  We
embed it shallowly:

* the filesystem output directory is a `List String` of top-level entry
  names (the script only ever touches files directly inside `nupkg/`);
* an external command is its argument vector, a `List String`;
* the outside world is an `Env`: given a command and the current output
  directory it returns the command's exit code and the directory contents
  after the command ran (external `dotnet pack` invocations create files);
* interactive `input()` / `getpass()` answers are passed in as explicit
  `String` parameters (the `Inputs` structure);
* `error(msg)` (print to stderr, `sys.exit(1)`) becomes `Except.error 1`;
  a normal return is `Except.ok`; the top-level `main` converts the
  outcome into the process exit code and also records the ordered trace
  of external commands it executed.
-/

namespace PackPush

/-- `os.path.join` for the two-component joins the script performs. -/
def joinPath (a b : String) : String := a ++ "/" ++ b

/-- `os.path.dirname(os.path.abspath(__file__))`: the directory holding the
script.  Its concrete value depends on where the repository is checked out;
no claim depends on it, so it is modelled as a fixed abstract path. -/
def SCRIPT_DIR : String := "."

/-- `GENERATOR_PROJ = os.path.join(SCRIPT_DIR, "BitSerializer.Generator", "BitSerializer.Generator.csproj")`. -/
def GENERATOR_PROJ : String :=
  joinPath (joinPath SCRIPT_DIR "BitSerializer.Generator") "BitSerializer.Generator.csproj"

/-- `MAIN_PROJ = os.path.join(SCRIPT_DIR, "BitSerializer", "BitSerializer.csproj")`. -/
def MAIN_PROJ : String :=
  joinPath (joinPath SCRIPT_DIR "BitSerializer") "BitSerializer.csproj"

/-- `OUTPUT_DIR = os.path.join(SCRIPT_DIR, "nupkg")`. -/
def OUTPUT_DIR : String := joinPath SCRIPT_DIR "nupkg"

/-- Python's `str.isspace` on the ASCII whitespace characters (the inputs
the claims exercise are ASCII; astral whitespace is out of scope). -/
def pyIsSpace (c : Char) : Bool :=
  c = ' ' || c = '\t' || c = '\n' || c = '\r' || c = '\x0b' || c = '\x0c'

/-- Python's `str.strip()`: removes leading and trailing whitespace. -/
def strip (s : String) : String :=
  String.mk (((s.toList.dropWhile pyIsSpace).reverse.dropWhile pyIsSpace).reverse)

/-- Python's `str.lower()` on one ASCII character. -/
def lowerChar (c : Char) : Char :=
  if 65 ≤ c.toNat ∧ c.toNat ≤ 90 then Char.ofNat (c.toNat + 32) else c

/-- Python's `str.lower()`. -/
def lower (s : String) : String := String.mk (s.toList.map lowerChar)

/-- Boolean list-prefix test (shared by the string helpers and the regex
model below). -/
def isPre : List Char → List Char → Bool
  | [], _ => true
  | _ :: _, [] => false
  | a :: as, b :: bs => a = b && isPre as bs

/-- Whether `s` ends with `suf`. -/
def strEndsWith (s suf : String) : Bool :=
  isPre suf.toList.reverse s.toList.reverse

/-- Whether `s` starts with `pre`. -/
def strStartsWith (s pre : String) : Bool :=
  isPre pre.toList s.toList

/-- Whether a directory entry name is matched by the glob pattern
`*.nupkg` as Python's `glob.glob` applies it: the name must end in
`".nupkg"`, and a name beginning with a dot is only matched by a pattern
that itself begins with a dot, which `*.nupkg` does not. -/
def isNupkgGlob (name : String) : Bool :=
  strEndsWith name ".nupkg" && !(strStartsWith name ".")

/-- `glob.glob(os.path.join(OUTPUT_DIR, "*.nupkg"))`: the matching entries
of the output directory, as full paths, in directory order. -/
def globNupkg (dir : List String) : List String :=
  (dir.filter isNupkgGlob).map (joinPath OUTPUT_DIR)

/-- The pre-clean loop of `build_and_pack`:
`for f in glob.glob(os.path.join(OUTPUT_DIR, "*.nupkg")): os.remove(f)`.
Every glob-matched file is removed; nothing else is touched. -/
def cleanOutputDir (dir : List String) : List String :=
  dir.filter (fun f => !(isNupkgGlob f))

/-- An external command: its argument vector as passed to `subprocess.run`. -/
abbrev Cmd := List String

/-- The outside world: maps a command and the current output-directory
contents to the command's exit code and the directory contents afterwards. -/
abbrev Env := Cmd → List String → Int × List String

/-- `run(cmd)`: `subprocess.run(cmd)`; a non-zero return code is fatal
(`error(...)`, which exits with status 1).  Returns the one-command trace,
the directory after the command, and the outcome. -/
def run (env : Env) (dir : List String) (cmd : Cmd) :
    List Cmd × List String × Except Nat Unit :=
  let r := env cmd dir
  ([cmd], r.2, if r.1 ≠ 0 then .error 1 else .ok ())

/-! ### Version extraction (`get_version`)

`re.search(r"<Version>([^<]+)</Version>", text)`: the leftmost position at
which the pattern matches wins; at a given position `[^<]+` greedily takes
the maximal run of non-`<` characters, and since `</Version>` begins with
`<`, backtracking can never help, so the match at a position is unique. -/

/-- The literal `"<Version>"` as a character list. -/
def versionOpen : List Char := "<Version>".toList

/-- The literal `"</Version>"` as a character list. -/
def versionClose : List Char := "</Version>".toList

/-- Splits a character list at the first `'<'`: the first component is the
maximal `'<'`-free run (the greedy `[^<]+` consumes exactly this). -/
def takeNonLt : List Char → List Char × List Char
  | [] => ([], [])
  | c :: cs =>
    if c = '<' then ([], c :: cs)
    else
      let p := takeNonLt cs
      (c :: p.1, p.2)

/-- Attempts to match `<Version>([^<]+)</Version>` anchored at the start of
`cs`; returns the captured group. -/
def matchVersionAt (cs : List Char) : Option (List Char) :=
  if isPre versionOpen cs then
    let rest := cs.drop versionOpen.length
    let p := takeNonLt rest
    if p.1 ≠ [] ∧ isPre versionClose p.2 then some p.1 else none
  else none

/-- `re.search`: tries the anchored match at every position left to right
and returns the first capture. -/
def reSearchVersion : List Char → Option (List Char)
  | [] => none
  | c :: cs =>
    match matchVersionAt (c :: cs) with
    | some v => some v
    | none => reSearchVersion cs

/-- `get_version(csproj)`: searches the descriptor text for the version
tag and returns the captured group; `error(...)` (exit 1) if absent.
The file contents are passed in as `content`. -/
def get_version (content : String) : Except Nat String :=
  match reSearchVersion content.toList with
  | some v => .ok (String.mk v)
  | none => .error 1

/-! ### Destination and credential configuration -/

/-- `list_sources()`: runs `dotnet nuget list source`. -/
def listSourcesCmd : Cmd := ["dotnet", "nuget", "list", "source"]

/-- `list_sources()`: delegates to the toolchain; a non-zero exit is fatal. -/
def list_sources (env : Env) (dir : List String) :
    List Cmd × List String × Except Nat Unit :=
  run env dir listSourcesCmd

/-- `set_source()`: the destination menu.  `choice` is the raw answer to
`input("请选择 [1/2/3]: ")`, `owner` the answer to the organization prompt,
`customUrl` the answer to the custom-URL prompt (each consumed only on the
branch that asks for it).  Each answer is `.strip()`-ed before use. -/
def set_source (choice owner customUrl : String) : Except Nat String :=
  let c := strip choice
  if c = "1" then
    .ok "https://api.nuget.org/v3/index.json"
  else if c = "2" then
    let o := strip owner
    if o = "" then .error 1
    else .ok ("https://nuget.pkg.github.com/" ++ o ++ "/index.json")
  else if c = "3" then
    let u := strip customUrl
    if u = "" then .error 1 else .ok u
  else .error 1

/-- `set_api_key()`: the credential prompt.  `apiKey` is the raw string the
operator typed at `getpass.getpass(...)` (a non-echoing read; the masking
itself is terminal I/O outside the embedding).  Note the value is NOT
stripped: `if not api_key` tests emptiness of the verbatim string. -/
def set_api_key (apiKey : String) : Except Nat String :=
  if apiKey = "" then .error 1 else .ok apiKey

/-! ### Pack (`build_and_pack`) -/

/-- Step 1/2 of the pack: `dotnet pack GENERATOR_PROJ -c Release --output
OUTPUT_DIR -p:Version={version}`. -/
def packGeneratorCmd (version : String) : Cmd :=
  ["dotnet", "pack", GENERATOR_PROJ, "-c", "Release",
   "--output", OUTPUT_DIR, "-p:Version=" ++ version]

/-- First half of step 2/2: `dotnet build GENERATOR_PROJ -c Release
-p:Version={version}`. -/
def buildGeneratorCmd (version : String) : Cmd :=
  ["dotnet", "build", GENERATOR_PROJ, "-c", "Release",
   "-p:Version=" ++ version]

/-- Second half of step 2/2: `dotnet pack MAIN_PROJ -c Release --output
OUTPUT_DIR -p:Version={version}`. -/
def packMainCmd (version : String) : Cmd :=
  ["dotnet", "pack", MAIN_PROJ, "-c", "Release",
   "--output", OUTPUT_DIR, "-p:Version=" ++ version]

/-- `build_and_pack(version)`: ensures `OUTPUT_DIR` exists
(`os.makedirs(..., exist_ok=True)`; in the embedding the directory is the
`List String` itself, so existence is implicit), removes every glob-matched
`*.nupkg` file, then runs the three toolchain invocations in sequence,
stopping at the first failure.  Returns the trace of commands actually
executed, the final directory contents, and the outcome. -/
def build_and_pack (env : Env) (version : String) (dir : List String) :
    List Cmd × List String × Except Nat Unit :=
  let dir0 := cleanOutputDir dir
  match run env dir0 (packGeneratorCmd version) with
  | (t1, d1, .error c) => (t1, d1, .error c)
  | (t1, d1, .ok ()) =>
    match run env d1 (buildGeneratorCmd version) with
    | (t2, d2, .error c) => (t1 ++ t2, d2, .error c)
    | (t2, d2, .ok ()) =>
      match run env d2 (packMainCmd version) with
      | (t3, d3, r) => (t1 ++ t2 ++ t3, d3, r)

/-! ### Push (`push_packages`) -/

/-- One upload: `dotnet nuget push <pkg> --source <source> --api-key
<api_key> --skip-duplicate`. -/
def pushCmd (source apiKey pkg : String) : Cmd :=
  ["dotnet", "nuget", "push", pkg,
   "--source", source, "--api-key", apiKey, "--skip-duplicate"]

/-- The `for pkg in pkgs` loop of `push_packages`: pushes each package in
order, stopping at (and aborting on) the first failing invocation. -/
def pushLoop (env : Env) (source apiKey : String) (dir : List String) :
    List String → List Cmd × List String × Except Nat Unit
  | [] => ([], dir, .ok ())
  | pkg :: rest =>
    match run env dir (pushCmd source apiKey pkg) with
    | (t, d, .error c) => (t, d, .error c)
    | (t, d, .ok ()) =>
      match pushLoop env source apiKey d rest with
      | (ts, d', r) => (t ++ ts, d', r)

/-- Result of `push_packages`: the trace of push commands, the directory
afterwards, whether the no-packages warning was printed, and the outcome. -/
structure PushResult where
  trace : List Cmd
  dir : List String
  warned : Bool
  result : Except Nat Unit

/-- `push_packages(source, api_key)`: globs `*.nupkg` in the output
directory; if none, warns and returns normally; otherwise pushes each file
in order, aborting the run on the first failure. -/
def push_packages (env : Env) (source apiKey : String) (dir : List String) :
    PushResult :=
  let pkgs := globNupkg dir
  if pkgs.isEmpty then
    ⟨[], dir, true, .ok ()⟩
  else
    match pushLoop env source apiKey dir pkgs with
    | (t, d, r) => ⟨t, d, false, r⟩

/-! ### Main menu -/

/-- The operator's interactive answers, one field per prompt the script can
reach.  Fields for prompts a run never reaches are simply unused. -/
structure Inputs where
  action : String
  choice : String
  owner : String
  customUrl : String
  apiKey : String

/-- Outcome of a whole process run: the ordered trace of external commands
executed, the final output-directory contents, and the process exit code. -/
structure MainResult where
  trace : List Cmd
  dir : List String
  exitCode : Nat

/-- `main()`: reads the version from `MAIN_PROJ`'s contents (`descriptor`),
prints the banner, dispatches on the stripped lowercased menu answer:
`"1"` lists sources, `"2"` packs, `"3"` lists sources then interactively
configures source and API key then packs then pushes, `"q"` exits 0, and
anything else is fatal.  A component's `Except.error c` is `sys.exit(c)`;
falling off the end of `main` exits 0. -/
def main (env : Env) (descriptor : String) (inputs : Inputs)
    (dir : List String) : MainResult :=
  match get_version descriptor with
  | .error c => ⟨[], dir, c⟩
  | .ok version =>
    let action := lower (strip inputs.action)
    if action = "1" then
      match list_sources env dir with
      | (t, d, .error c) => ⟨t, d, c⟩
      | (t, d, .ok ()) => ⟨t, d, 0⟩
    else if action = "2" then
      match build_and_pack env version dir with
      | (t, d, .error c) => ⟨t, d, c⟩
      | (t, d, .ok ()) => ⟨t, d, 0⟩
    else if action = "3" then
      match list_sources env dir with
      | (t0, d0, .error c) => ⟨t0, d0, c⟩
      | (t0, d0, .ok ()) =>
        match set_source inputs.choice inputs.owner inputs.customUrl with
        | .error c => ⟨t0, d0, c⟩
        | .ok source =>
          match set_api_key inputs.apiKey with
          | .error c => ⟨t0, d0, c⟩
          | .ok apiKey =>
            match build_and_pack env version d0 with
            | (t1, d1, .error c) => ⟨t0 ++ t1, d1, c⟩
            | (t1, d1, .ok ()) =>
              let pr := push_packages env source apiKey d1
              match pr.result with
              | .error c => ⟨t0 ++ t1 ++ pr.trace, pr.dir, c⟩
              | .ok () => ⟨t0 ++ t1 ++ pr.trace, pr.dir, 0⟩
    else if action = "q" then ⟨[], dir, 0⟩
    else ⟨[], dir, 1⟩

/-- An environment in which every external command succeeds and leaves the
output directory unchanged (used to evaluate the model at concrete inputs). -/
def envAllOk : Env := fun _ d => (0, d)

/-- A character list contains a version tag: somewhere in it sits
`<Version>` followed by a nonempty `<`-free body followed by `</Version>`.
This is the spec-side reading of "a descriptor file containing a version
tag", stated independently of the search procedure. -/
def containsVersionTag (cs : List Char) : Prop :=
  ∃ pre v suf, cs = pre ++ versionOpen ++ v ++ versionClose ++ suf ∧
    v ≠ [] ∧ '<' ∉ v

/-! ## Helper lemmas -/

theorem isPre_append (xs t : List Char) : isPre xs (xs ++ t) = true := by
  induction xs with
  | nil => rfl
  | cons a as ih => simp [isPre, ih]

theorem isPre_sound : ∀ xs ys : List Char, isPre xs ys = true → ∃ t, ys = xs ++ t := by
  intro xs
  induction xs with
  | nil => intro ys _; exact ⟨ys, rfl⟩
  | cons a as ih =>
    intro ys h
    cases ys with
    | nil => simp [isPre] at h
    | cons b bs =>
      simp only [isPre, Bool.and_eq_true, decide_eq_true_eq] at h
      obtain ⟨t, ht⟩ := ih bs h.2
      exact ⟨t, by simp [h.1, ht]⟩

theorem takeNonLt_append (rest : List Char) :
    ∀ r : List Char, '<' ∉ r → takeNonLt (r ++ '<' :: rest) = (r, '<' :: rest) := by
  intro r
  induction r with
  | nil => intro _; simp [takeNonLt]
  | cons c cs ih =>
    intro h
    have hc : ¬ c = '<' := by
      intro hc; exact h (by simp [hc])
    have hcs : '<' ∉ cs := fun hm => h (by simp [hm])
    simp [takeNonLt, hc, ih hcs]

theorem takeNonLt_decomp : ∀ cs : List Char,
    cs = (takeNonLt cs).1 ++ (takeNonLt cs).2 ∧ '<' ∉ (takeNonLt cs).1 := by
  intro cs
  induction cs with
  | nil => simp [takeNonLt]
  | cons c cs ih =>
    by_cases hc : c = '<'
    · simp [takeNonLt, hc]
    · simp only [takeNonLt, if_neg hc]
      refine ⟨by simpa using ih.1, ?_⟩
      simp only [List.mem_cons, not_or]
      exact ⟨fun h => hc h.symm, ih.2⟩

theorem matchVersionAt_sound {cs v : List Char} (h : matchVersionAt cs = some v) :
    ∃ suf, cs = versionOpen ++ v ++ versionClose ++ suf ∧ v ≠ [] ∧ '<' ∉ v := by
  unfold matchVersionAt at h
  by_cases h1 : isPre versionOpen cs = true
  · rw [if_pos h1] at h
    obtain ⟨t, ht⟩ := isPre_sound _ _ h1
    by_cases h2 : (takeNonLt (cs.drop versionOpen.length)).1 ≠ [] ∧
        isPre versionClose (takeNonLt (cs.drop versionOpen.length)).2 = true
    · rw [if_pos h2] at h
      have hdrop : cs.drop versionOpen.length = t := by
        rw [ht]; exact List.drop_left _ _
      obtain ⟨hne, hcl⟩ := h2
      obtain ⟨suf, hsuf⟩ := isPre_sound _ _ hcl
      have hdec := takeNonLt_decomp t
      have hv : (takeNonLt t).1 = v := by
        rw [hdrop] at h; exact Option.some.inj h
      refine ⟨suf, ?_, ?_, ?_⟩
      · rw [ht, hdec.1, hv]
        rw [hdrop] at hsuf
        rw [hsuf]
        simp [List.append_assoc]
      · rw [hdrop, hv] at hne; exact hne
      · rw [← hv]; exact hdec.2
    · rw [if_neg h2] at h; exact absurd h (by simp)
  · rw [if_neg h1] at h; exact absurd h (by simp)

theorem matchVersionAt_complete {v : List Char} (suf : List Char)
    (hne : v ≠ []) (hlt : '<' ∉ v) :
    matchVersionAt (versionOpen ++ v ++ versionClose ++ suf) = some v := by
  have hcl : versionClose = '<' :: "/Version>".toList := rfl
  have harr : versionOpen ++ v ++ versionClose ++ suf =
      versionOpen ++ (v ++ '<' :: ("/Version>".toList ++ suf)) := by
    rw [hcl]; simp [List.append_assoc]
  unfold matchVersionAt
  rw [harr, if_pos (isPre_append _ _)]
  have hdrop : (versionOpen ++ (v ++ '<' :: ("/Version>".toList ++ suf))).drop
      versionOpen.length = v ++ '<' :: ("/Version>".toList ++ suf) :=
    List.drop_left _ _
  simp only [hdrop, takeNonLt_append ("/Version>".toList ++ suf) v hlt]
  have hpre : isPre versionClose ('<' :: ("/Version>".toList ++ suf)) = true := by
    have h2 : '<' :: ("/Version>".toList ++ suf) = versionClose ++ suf := by
      rw [hcl]; simp
    rw [h2]; exact isPre_append _ _
  rw [if_pos ⟨hne, hpre⟩]

theorem reSearchVersion_sound : ∀ cs v : List Char, reSearchVersion cs = some v →
    ∃ pre suf, cs = pre ++ versionOpen ++ v ++ versionClose ++ suf ∧
      v ≠ [] ∧ '<' ∉ v := by
  intro cs
  induction cs with
  | nil => intro v h; simp [reSearchVersion] at h
  | cons c cs ih =>
    intro v h
    unfold reSearchVersion at h
    cases hm : matchVersionAt (c :: cs) with
    | some w =>
      rw [hm] at h
      obtain ⟨suf, hsuf, hne, hlt⟩ := matchVersionAt_sound hm
      have hv : w = v := Option.some.inj h
      exact ⟨[], suf, by simpa [hv] using hsuf, hv ▸ hne, hv ▸ hlt⟩
    | none =>
      rw [hm] at h
      obtain ⟨pre, suf, hcs, hne, hlt⟩ := ih v h
      exact ⟨c :: pre, suf, by simp [hcs], hne, hlt⟩

theorem reSearchVersion_of_match {cs v : List Char}
    (h : matchVersionAt cs = some v) : reSearchVersion cs = some v := by
  cases cs with
  | nil =>
    have : matchVersionAt ([] : List Char) = none := by decide
    rw [this] at h; exact absurd h (by simp)
  | cons c cs => unfold reSearchVersion; rw [h]

theorem reSearchVersion_complete : ∀ pre : List Char, ∀ v suf : List Char,
    v ≠ [] → '<' ∉ v →
    ∃ w, reSearchVersion (pre ++ versionOpen ++ v ++ versionClose ++ suf) = some w := by
  intro pre
  induction pre with
  | nil =>
    intro v suf hne hlt
    exact ⟨v, by
      simp only [List.nil_append]
      exact reSearchVersion_of_match (matchVersionAt_complete suf hne hlt)⟩
  | cons c pre ih =>
    intro v suf hne hlt
    have harr : c :: pre ++ versionOpen ++ v ++ versionClose ++ suf =
        c :: (pre ++ versionOpen ++ v ++ versionClose ++ suf) := by simp
    rw [harr]
    unfold reSearchVersion
    cases hm : matchVersionAt (c :: (pre ++ versionOpen ++ v ++ versionClose ++ suf)) with
    | some w => exact ⟨w, rfl⟩
    | none =>
      obtain ⟨w, hw⟩ := ih v suf hne hlt
      exact ⟨w, hw⟩

theorem get_version_ok_of_contains {content : String}
    (h : containsVersionTag content.toList) :
    ∃ v : String, get_version content = .ok v ∧
      (∃ pre suf, content.toList =
        pre ++ versionOpen ++ v.toList ++ versionClose ++ suf ∧
        v.toList ≠ [] ∧ '<' ∉ v.toList) := by
  obtain ⟨pre, v, suf, hcs, hne, hlt⟩ := h
  have hr : ∃ w, reSearchVersion content.toList = some w := by
    rw [hcs]; exact reSearchVersion_complete pre v suf hne hlt
  obtain ⟨w, hw⟩ := hr
  obtain ⟨pre', suf', hcs', hne', hlt'⟩ := reSearchVersion_sound _ _ hw
  refine ⟨String.mk w, ?_, pre', suf', ?_, hne', hlt'⟩
  · unfold get_version; rw [hw]
  · exact hcs'

theorem get_version_error_of_not_contains {content : String}
    (h : ¬ containsVersionTag content.toList) :
    get_version content = .error 1 := by
  unfold get_version
  cases hw : reSearchVersion content.toList with
  | none => rfl
  | some v =>
    obtain ⟨pre, suf, hcs, hne, hlt⟩ := reSearchVersion_sound _ _ hw
    exact absurd ⟨pre, v, suf, hcs, hne, hlt⟩ h

theorem get_version_error_code {content : String} {c : Nat}
    (h : get_version content = .error c) : c = 1 := by
  unfold get_version at h
  cases hw : reSearchVersion content.toList with
  | none => rw [hw] at h; exact (Except.error.inj h).symm
  | some v => rw [hw] at h; exact absurd h (by simp)

theorem run_eq (env : Env) (dir : List String) (cmd : Cmd) :
    run env dir cmd = ([cmd], (env cmd dir).2,
      if (env cmd dir).1 ≠ 0 then .error 1 else .ok ()) := rfl

theorem run_error_code {env : Env} {dir : List String} {cmd : Cmd} {c : Nat}
    (h : (run env dir cmd).2.2 = .error c) : c = 1 := by
  rw [run_eq] at h
  by_cases hc : (env cmd dir).1 ≠ 0
  · rw [if_pos hc] at h; exact (Except.error.inj h).symm
  · rw [if_neg hc] at h; exact absurd h (by simp)

theorem build_and_pack_error_code {env : Env} {version : String}
    {dir : List String} {c : Nat}
    (h : (build_and_pack env version dir).2.2 = .error c) : c = 1 := by
  simp only [build_and_pack] at h
  rcases h1 : run env (cleanOutputDir dir) (packGeneratorCmd version) with ⟨t1, d1, r1⟩
  rw [h1] at h
  cases r1 with
  | error c1 =>
    simp only at h
    have := run_error_code (c := c1) (by rw [h1])
    rw [← Except.error.inj h]
    exact this
  | ok u =>
    cases u
    simp only at h
    rcases h2 : run env d1 (buildGeneratorCmd version) with ⟨t2, d2, r2⟩
    rw [h2] at h
    cases r2 with
    | error c2 =>
      simp only at h
      have := run_error_code (c := c2) (by rw [h2])
      rw [← Except.error.inj h]
      exact this
    | ok u =>
      cases u
      simp only at h
      rcases h3 : run env d2 (packMainCmd version) with ⟨t3, d3, r3⟩
      rw [h3] at h
      cases r3 with
      | error c3 =>
        simp only at h
        have := run_error_code (c := c3) (by rw [h3])
        rw [← Except.error.inj h]
        exact this
      | ok u => cases u; simp at h

theorem pushLoop_cons (env : Env) (s a : String) (dir : List String)
    (pkg : String) (rest : List String) :
    pushLoop env s a dir (pkg :: rest) =
      if (env (pushCmd s a pkg) dir).1 ≠ 0 then
        ([pushCmd s a pkg], (env (pushCmd s a pkg) dir).2, .error 1)
      else
        ([pushCmd s a pkg] ++
            (pushLoop env s a (env (pushCmd s a pkg) dir).2 rest).1,
          (pushLoop env s a (env (pushCmd s a pkg) dir).2 rest).2.1,
          (pushLoop env s a (env (pushCmd s a pkg) dir).2 rest).2.2) := by
  by_cases hc : (env (pushCmd s a pkg) dir).1 ≠ 0
  · simp [pushLoop, run, hc]
  · rcases hpl : pushLoop env s a (env (pushCmd s a pkg) dir).2 rest with ⟨ts, d2, r⟩
    simp [pushLoop, run, hc, hpl]

theorem pushLoop_spec (env : Env) (s a : String) :
    ∀ (pkgs dir : List String),
      ∃ k, k ≤ pkgs.length ∧
        (pushLoop env s a dir pkgs).1 = (pkgs.take k).map (pushCmd s a) ∧
        ((pushLoop env s a dir pkgs).2.2 = .ok () → k = pkgs.length) ∧
        (∀ c, (pushLoop env s a dir pkgs).2.2 = .error c → c = 1) := by
  intro pkgs
  induction pkgs with
  | nil =>
    intro dir
    exact ⟨0, by simp [pushLoop]⟩
  | cons pkg rest ih =>
    intro dir
    by_cases hc : (env (pushCmd s a pkg) dir).1 ≠ 0
    · refine ⟨1, by simp, ?_, ?_, ?_⟩
      · rw [pushLoop_cons, if_pos hc]; simp
      · rw [pushLoop_cons, if_pos hc]; intro hr; simp at hr
      · rw [pushLoop_cons, if_pos hc]
        intro c hr
        exact (Except.error.inj hr).symm
    · obtain ⟨k, hk, htr, hok, herr⟩ := ih (env (pushCmd s a pkg) dir).2
      refine ⟨k + 1, by simpa using hk, ?_, ?_, ?_⟩
      · rw [pushLoop_cons, if_neg hc]
        simp only [List.take_succ_cons, List.map_cons]
        simpa using htr
      · rw [pushLoop_cons, if_neg hc]
        intro hr
        simp only [List.length_cons]
        exact congrArg Nat.succ (hok hr)
      · rw [pushLoop_cons, if_neg hc]
        intro c hr
        exact herr c hr

theorem push_packages_spec (env : Env) (s a : String) (dir : List String) :
    ∃ k, k ≤ (globNupkg dir).length ∧
      (push_packages env s a dir).trace = ((globNupkg dir).take k).map (pushCmd s a) ∧
      ((push_packages env s a dir).result = .ok () → k = (globNupkg dir).length) ∧
      (∀ c, (push_packages env s a dir).result = .error c → c = 1) := by
  by_cases he : globNupkg dir = []
  · refine ⟨0, by simp, ?_, ?_, ?_⟩ <;> simp [push_packages, he]
  · obtain ⟨k, hk, htr, hok, herr⟩ := pushLoop_spec env s a (globNupkg dir) dir
    rcases hpl : pushLoop env s a dir (globNupkg dir) with ⟨ts, d2, r⟩
    rw [hpl] at htr hok herr
    refine ⟨k, hk, ?_, ?_, ?_⟩
    · simp [push_packages, he, hpl]
      simpa using htr
    · simp only [push_packages]
      simp [he, hpl]
      exact hok
    · simp only [push_packages]
      simp [he, hpl]
      exact herr

theorem push_packages_error_code {env : Env} {s a : String} {dir : List String}
    {c : Nat} (h : (push_packages env s a dir).result = .error c) : c = 1 := by
  obtain ⟨k, _, _, _, herr⟩ := push_packages_spec env s a dir
  exact herr c h

theorem build_and_pack_spec (env : Env) (version : String) (dir : List String) :
    ∃ k, 1 ≤ k ∧ k ≤ 3 ∧
      (build_and_pack env version dir).1 =
        [packGeneratorCmd version, buildGeneratorCmd version,
          packMainCmd version].take k ∧
      ((build_and_pack env version dir).2.2 = .ok () → k = 3) := by
  by_cases h1 : (env (packGeneratorCmd version) (cleanOutputDir dir)).1 ≠ 0
  · refine ⟨1, by simp, by simp, ?_⟩
    simp [build_and_pack, run, if_pos h1]
  · by_cases h2 : (env (buildGeneratorCmd version)
        (env (packGeneratorCmd version) (cleanOutputDir dir)).2).1 ≠ 0
    · refine ⟨2, by simp, by simp, ?_⟩
      simp [build_and_pack, run, if_neg h1, if_pos h2]
    · by_cases h3 : (env (packMainCmd version)
          (env (buildGeneratorCmd version)
            (env (packGeneratorCmd version) (cleanOutputDir dir)).2).2).1 ≠ 0
      · refine ⟨3, by simp, by simp, ?_⟩
        simp [build_and_pack, run, if_neg h1, if_neg h2, if_pos h3]
      · refine ⟨3, by simp, by simp, ?_⟩
        simp [build_and_pack, run, if_neg h1, if_neg h2, if_neg h3]

theorem set_source_error_code {choice owner customUrl : String} {c : Nat}
    (h : set_source choice owner customUrl = .error c) : c = 1 := by
  simp only [set_source] at h
  split at h
  · exact absurd h (by simp)
  · split at h
    · split at h
      · exact (Except.error.inj h).symm
      · exact absurd h (by simp)
    · split at h
      · split at h
        · exact (Except.error.inj h).symm
        · exact absurd h (by simp)
      · exact (Except.error.inj h).symm

theorem set_api_key_error_code {apiKey : String} {c : Nat}
    (h : set_api_key apiKey = .error c) : c = 1 := by
  unfold set_api_key at h
  split at h
  · exact (Except.error.inj h).symm
  · exact absurd h (by simp)

theorem cleanOutputDir_idem (dir : List String) :
    cleanOutputDir (cleanOutputDir dir) = cleanOutputDir dir := by
  simp [cleanOutputDir, List.filter_filter]

/-! ## Claim theorems -/

/-- C1 counterexample: the claim says the pack operation runs the external
toolchain exactly twice, but already in a run where every external command
succeeds and touches nothing, `build_and_pack` performs three toolchain
invocations (pack generator, build generator, pack main), not two. -/
theorem C1_counterexample :
    (build_and_pack envAllOk "1.0.0" []).1.length = 3 ∧
    ¬ (build_and_pack envAllOk "1.0.0" []).1.length = 2 := by
  constructor <;> decide

/-- C1 (amended): the pack operation, after ensuring the output directory
exists and deleting pre-existing archive files, runs the external toolchain
exactly three times in sequence (pack for the code-generation sub-project,
build for the code-generation sub-project, pack for the main project),
passing the version as a parameter to each invocation; any non-zero exit
from any invocation is fatal (exit code 1) and aborts the whole run: the
last three conjuncts state, for each of the three invocations, that if it
is the first to return non-zero then the run stops right there with error
exit 1 and no later invocation appears in the trace. -/
theorem C1_pack_runs_toolchain_three_times (env : Env) (version : String)
    (dir : List String) :
    ((build_and_pack env version dir).2.2 = .ok () →
      (build_and_pack env version dir).1 =
        [packGeneratorCmd version, buildGeneratorCmd version, packMainCmd version]) ∧
    (∃ k, 1 ≤ k ∧ k ≤ 3 ∧
      (build_and_pack env version dir).1 =
        [packGeneratorCmd version, buildGeneratorCmd version,
          packMainCmd version].take k) ∧
    (∀ cmd ∈ (build_and_pack env version dir).1,
      ("-p:Version=" ++ version) ∈ cmd) ∧
    (∀ c, (build_and_pack env version dir).2.2 = .error c → c = 1) ∧
    ((env (packGeneratorCmd version) (cleanOutputDir dir)).1 ≠ 0 →
      build_and_pack env version dir =
        ([packGeneratorCmd version],
          (env (packGeneratorCmd version) (cleanOutputDir dir)).2, .error 1)) ∧
    ((env (packGeneratorCmd version) (cleanOutputDir dir)).1 = 0 →
      (env (buildGeneratorCmd version)
        (env (packGeneratorCmd version) (cleanOutputDir dir)).2).1 ≠ 0 →
      build_and_pack env version dir =
        ([packGeneratorCmd version, buildGeneratorCmd version],
          (env (buildGeneratorCmd version)
            (env (packGeneratorCmd version) (cleanOutputDir dir)).2).2, .error 1)) ∧
    ((env (packGeneratorCmd version) (cleanOutputDir dir)).1 = 0 →
      (env (buildGeneratorCmd version)
        (env (packGeneratorCmd version) (cleanOutputDir dir)).2).1 = 0 →
      (env (packMainCmd version)
        (env (buildGeneratorCmd version)
          (env (packGeneratorCmd version) (cleanOutputDir dir)).2).2).1 ≠ 0 →
      build_and_pack env version dir =
        ([packGeneratorCmd version, buildGeneratorCmd version, packMainCmd version],
          (env (packMainCmd version)
            (env (buildGeneratorCmd version)
              (env (packGeneratorCmd version) (cleanOutputDir dir)).2).2).2,
          .error 1)) := by
  obtain ⟨k, hk1, hk3, htr, hok⟩ := build_and_pack_spec env version dir
  refine ⟨?_, ⟨k, hk1, hk3, htr⟩, ?_, fun c h => build_and_pack_error_code h,
    ?_, ?_, ?_⟩
  · intro h
    rw [hok h] at htr
    simpa using htr
  · intro cmd hcmd
    rw [htr] at hcmd
    have hmem : cmd ∈ [packGeneratorCmd version, buildGeneratorCmd version,
        packMainCmd version] := List.take_subset _ _ hcmd
    simp only [List.mem_cons, List.not_mem_nil, or_false] at hmem
    rcases hmem with rfl | rfl | rfl <;>
      simp [packGeneratorCmd, buildGeneratorCmd, packMainCmd]
  · intro h1
    simp [build_and_pack, run, h1]
  · intro h1 h2
    simp [build_and_pack, run, h1, h2]
  · intro h1 h2 h3
    simp [build_and_pack, run, h1, h2, h3]

/-- C2: at push time the trace is one upload command per globbed archive
file, in order; a successful run pushes every file (exactly N invocations),
each command carries the configured destination, credential and the
duplicate-skip flag, and the run aborts on the first failure.  The last
four conjuncts pin the abort semantics operationally: the per-file loop
does nothing on an empty list, stops immediately with error exit 1 when
the invocation for the head file fails (so no invocation for any later
file ever occurs), continues with exactly the remaining files when it
succeeds, and `push_packages` is this loop applied to the globbed files. -/
theorem C2_push_one_invocation_per_file (env : Env) (s a : String)
    (dir : List String) :
    ((push_packages env s a dir).result = .ok () →
      (push_packages env s a dir).trace = (globNupkg dir).map (pushCmd s a)) ∧
    (∃ k, k ≤ (globNupkg dir).length ∧
      (push_packages env s a dir).trace =
        ((globNupkg dir).take k).map (pushCmd s a)) ∧
    (∀ cmd ∈ (push_packages env s a dir).trace,
      s ∈ cmd ∧ a ∈ cmd ∧ ("--skip-duplicate" : String) ∈ cmd) ∧
    (∀ c, (push_packages env s a dir).result = .error c → c = 1) ∧
    (∀ d : List String, pushLoop env s a d [] = ([], d, .ok ())) ∧
    (∀ (d : List String) (pkg : String) (rest : List String),
      (env (pushCmd s a pkg) d).1 ≠ 0 →
      pushLoop env s a d (pkg :: rest) =
        ([pushCmd s a pkg], (env (pushCmd s a pkg) d).2, .error 1)) ∧
    (∀ (d : List String) (pkg : String) (rest : List String),
      (env (pushCmd s a pkg) d).1 = 0 →
      pushLoop env s a d (pkg :: rest) =
        ([pushCmd s a pkg] ++
            (pushLoop env s a (env (pushCmd s a pkg) d).2 rest).1,
          (pushLoop env s a (env (pushCmd s a pkg) d).2 rest).2.1,
          (pushLoop env s a (env (pushCmd s a pkg) d).2 rest).2.2)) ∧
    (globNupkg dir ≠ [] →
      (push_packages env s a dir).trace =
        (pushLoop env s a dir (globNupkg dir)).1 ∧
      (push_packages env s a dir).result =
        (pushLoop env s a dir (globNupkg dir)).2.2) := by
  obtain ⟨k, hk, htr, hok, herr⟩ := push_packages_spec env s a dir
  refine ⟨?_, ⟨k, hk, htr⟩, ?_, herr, ?_, ?_, ?_, ?_⟩
  · intro h
    rw [hok h] at htr
    simpa using htr
  · intro cmd hcmd
    rw [htr] at hcmd
    obtain ⟨pkg, _, rfl⟩ := List.mem_map.mp hcmd
    refine ⟨?_, ?_, ?_⟩ <;> simp [pushCmd]
  · intro d
    rfl
  · intro d pkg rest h
    rw [pushLoop_cons, if_pos h]
  · intro d pkg rest h
    rw [pushLoop_cons, if_neg (by simp [h])]
  · intro he
    rcases hpl : pushLoop env s a dir (globNupkg dir) with ⟨ts, d2, r⟩
    constructor <;> simp [push_packages, he, hpl]

/-- C4: with no archive file in the output directory at push time, the
push operation performs zero external invocations, reports the warning,
and returns without error. -/
theorem C4_push_empty_warns_and_returns (env : Env) (s a : String)
    (dir : List String) (h : globNupkg dir = []) :
    (push_packages env s a dir).trace = [] ∧
    (push_packages env s a dir).warned = true ∧
    (push_packages env s a dir).result = .ok () := by
  simp [push_packages, h]

/-- C4 witness: a directory holding only `readme.txt` has no archive files,
and pushing performs no invocation, warns, and succeeds. -/
theorem C4_witness :
    globNupkg ["readme.txt"] = [] ∧
    ((push_packages envAllOk "src" "key" ["readme.txt"]).trace = [] ∧
     (push_packages envAllOk "src" "key" ["readme.txt"]).warned = true ∧
     (push_packages envAllOk "src" "key" ["readme.txt"]).result = .ok ()) :=
  ⟨by decide,
    C4_push_empty_warns_and_returns envAllOk "src" "key" ["readme.txt"] (by decide)⟩

/-- C5: destination menu — option 1 yields the fixed nuget.org URL;
option 2 with organization `"acme"` yields the GitHub Packages URL with
`"acme"` substituted in the template position; option 2 with empty
organization is fatal, option 3 with empty URL is fatal, and any choice
other than 1, 2, 3 is fatal. -/
theorem C5_set_source_options (choice owner customUrl : String) :
    set_source "1" owner customUrl = .ok "https://api.nuget.org/v3/index.json" ∧
    set_source "2" "acme" customUrl =
      .ok ("https://nuget.pkg.github.com/" ++ "acme" ++ "/index.json") ∧
    set_source "2" "" customUrl = .error 1 ∧
    set_source "3" owner "" = .error 1 ∧
    (strip choice ≠ "1" → strip choice ≠ "2" → strip choice ≠ "3" →
      set_source choice owner customUrl = .error 1) := by
  have h1 : strip "1" = "1" := by decide
  have h2 : strip "2" = "2" := by decide
  have h3 : strip "3" = "3" := by decide
  have he : strip "" = "" := by decide
  have ha : strip "acme" = "acme" := by decide
  refine ⟨?_, ?_, ?_, ?_, ?_⟩
  · simp [set_source, h1]
  · simp [set_source, h2, ha]
  · simp [set_source, h2, he]
  · simp [set_source, h3, he]
  · intro hn1 hn2 hn3
    simp [set_source, hn1, hn2, hn3]

/-- C6: the pack operation's pre-clean leaves the output directory with no
archive file (everything glob-matched is removed), and the rest of the run
depends only on the cleaned directory, so no pre-existing archive file can
survive into or influence the run. -/
theorem C6_pack_clears_prior_archives (env : Env) (version : String)
    (dir : List String) :
    (∀ f ∈ cleanOutputDir dir, isNupkgGlob f = false) ∧
    (∀ f ∈ dir, isNupkgGlob f = true → f ∉ cleanOutputDir dir) ∧
    build_and_pack env version dir = build_and_pack env version (cleanOutputDir dir) := by
  refine ⟨?_, ?_, ?_⟩
  · intro f hf
    have := List.of_mem_filter hf
    simpa using this
  · intro f _ hglob hmem
    have := List.of_mem_filter hmem
    simp [hglob] at this
  · simp only [build_and_pack, cleanOutputDir_idem]

/-- C8: the credential prompt fails fatally (exit 1) exactly when the
entered credential is the empty string; otherwise it returns the entered
credential verbatim.  (The secret is collected through `getpass`, a
non-echoing read; the terminal masking itself is outside the embedding.) -/
theorem C8_api_key_fatal_iff_empty (apiKey : String) :
    (set_api_key apiKey = .error 1 ↔ apiKey = "") ∧
    (apiKey ≠ "" → set_api_key apiKey = .ok apiKey) ∧
    (∀ c, set_api_key apiKey = .error c → c = 1) := by
  by_cases h : apiKey = "" <;> simp [set_api_key, h]

/-- C9: the credential is not stripped before the emptiness check, so any
whitespace-only credential is accepted and returned verbatim; by contrast
the organization and custom-URL answers are stripped before the check, so
whitespace-only input there is fatal, and menu choices are stripped too
(a padded `" 1 "` selects option 1; a padded, upper-case `" Q "` quits). -/
theorem C9_credential_not_stripped_inputs_stripped (w owner customUrl : String) :
    (strip w = "" → w ≠ "" → set_api_key w = .ok w) ∧
    (strip w = "" → set_source "2" w customUrl = .error 1) ∧
    (strip w = "" → set_source "3" owner w = .error 1) ∧
    set_source " 1 " owner customUrl = .ok "https://api.nuget.org/v3/index.json" ∧
    (∀ (env : Env) (descriptor : String) (dir : List String)
        (choice owner2 customUrl2 apiKey v : String),
      get_version descriptor = .ok v →
      main env descriptor ⟨" Q ", choice, owner2, customUrl2, apiKey⟩ dir =
        ⟨[], dir, 0⟩) := by
  have h2 : strip "2" = "2" := by decide
  have h3 : strip "3" = "3" := by decide
  have hp1 : strip " 1 " = "1" := by decide
  have hq : lower (strip " Q ") = "q" := by decide
  refine ⟨?_, ?_, ?_, ?_, ?_⟩
  · intro _ hne
    simp [set_api_key, hne]
  · intro hw
    simp [set_source, h2, hw]
  · intro hw
    simp [set_source, h3, hw]
  · simp [set_source, hp1]
  · intro env descriptor dir choice owner2 customUrl2 apiKey v hv
    simp [main, hv, hq]

/-- C10: the pre-clean of the pack operation removes only glob-matched
archive files: any entry not matching `*.nupkg` keeps its exact
multiplicity, nothing new appears, and an entry that was removed must have
matched the pattern. -/
theorem C10_clean_touches_only_archives (dir : List String) (f : String) :
    (isNupkgGlob f = false → (cleanOutputDir dir).count f = dir.count f) ∧
    (f ∈ cleanOutputDir dir → f ∈ dir) ∧
    (f ∈ dir → f ∉ cleanOutputDir dir → isNupkgGlob f = true) := by
  refine ⟨?_, ?_, ?_⟩
  · intro h
    exact List.count_filter (by simp [h])
  · intro h
    exact List.mem_of_mem_filter h
  · intro hin hnot
    cases hg : isNupkgGlob f with
    | true => rfl
    | false => exact absurd (List.mem_filter.mpr ⟨hin, by simp [hg]⟩) hnot

/-- C3: if the descriptor text contains a version tag, `get_version`
returns a string that is exactly the content of a version tag occurring in
the text (nonempty, `<`-free, bracketed by the tag literals); if the text
contains no version tag, the run exits with code 1 having executed no
external command. -/
theorem C3_version_extraction (content : String) (env : Env)
    (inputs : Inputs) (dir : List String) :
    (containsVersionTag content.toList →
      ∃ v : String, get_version content = .ok v ∧
        ∃ pre suf, content.toList =
          pre ++ versionOpen ++ v.toList ++ versionClose ++ suf ∧
          v.toList ≠ [] ∧ '<' ∉ v.toList) ∧
    (¬ containsVersionTag content.toList →
      get_version content = .error 1 ∧
      main env content inputs dir = ⟨[], dir, 1⟩) := by
  refine ⟨fun h => get_version_ok_of_contains h, fun h => ?_⟩
  have hg := get_version_error_of_not_contains h
  exact ⟨hg, by simp [main, hg]⟩

/-- C7: the process exit code is always 0 or 1; a missing version tag
exits 1 before any command; the quit choice exits 0 having performed no
pack or push action; an invalid menu choice exits 1; a non-zero exit of an
external command is fatal with code 1; the empty-credential,
empty-organization and empty-URL prompts are fatal with code 1; and a
fully successful pack-only run exits 0. -/
theorem C7_exit_code_discipline (env : Env) (descriptor : String)
    (inputs : Inputs) (dir : List String) :
    ((main env descriptor inputs dir).exitCode = 0 ∨
      (main env descriptor inputs dir).exitCode = 1) ∧
    (get_version descriptor = .error 1 →
      main env descriptor inputs dir = ⟨[], dir, 1⟩) ∧
    (∀ v, get_version descriptor = .ok v →
      lower (strip inputs.action) = "q" →
      main env descriptor inputs dir = ⟨[], dir, 0⟩) ∧
    (∀ v, get_version descriptor = .ok v →
      lower (strip inputs.action) ≠ "1" →
      lower (strip inputs.action) ≠ "2" →
      lower (strip inputs.action) ≠ "3" →
      lower (strip inputs.action) ≠ "q" →
      main env descriptor inputs dir = ⟨[], dir, 1⟩) ∧
    (∀ (d : List String) (cmd : Cmd), (env cmd d).1 ≠ 0 →
      (run env d cmd).2.2 = .error 1) ∧
    set_api_key "" = .error 1 ∧
    set_source "2" "" inputs.customUrl = .error 1 ∧
    set_source "3" inputs.owner "" = .error 1 ∧
    (∀ v, get_version descriptor = .ok v →
      lower (strip inputs.action) = "2" →
      (build_and_pack env v dir).2.2 = .ok () →
      (main env descriptor inputs dir).exitCode = 0) := by
  have hs2 : strip "2" = "2" := by decide
  have hs3 : strip "3" = "3" := by decide
  have hse : strip "" = "" := by decide
  refine ⟨?_, ?_, ?_, ?_, ?_, ?_, ?_, ?_, ?_⟩
  · cases hgv : get_version descriptor with
    | error c =>
      right
      have hc := get_version_error_code hgv
      simp [main, hgv, hc]
    | ok v =>
      by_cases h1 : lower (strip inputs.action) = "1"
      · rcases hls : list_sources env dir with ⟨t, d, r⟩
        cases r with
        | ok u =>
          cases u
          left
          simp [main, hgv, h1, hls]
        | error c =>
          right
          have hc : c = 1 := run_error_code
            (show (run env dir listSourcesCmd).2.2 = .error c by
              rw [show run env dir listSourcesCmd = (t, d, .error c) from hls])
          simp [main, hgv, h1, hls, hc]
      · by_cases h2 : lower (strip inputs.action) = "2"
        · rcases hbp : build_and_pack env v dir with ⟨t, d, r⟩
          cases r with
          | ok u =>
            cases u
            left
            simp [main, hgv, h1, h2, hbp]
          | error c =>
            right
            have hc : c = 1 := build_and_pack_error_code
              (show (build_and_pack env v dir).2.2 = .error c by rw [hbp])
            simp [main, hgv, h1, h2, hbp, hc]
        · by_cases h3 : lower (strip inputs.action) = "3"
          · rcases hls : list_sources env dir with ⟨t0, d0, r0⟩
            cases r0 with
            | error c =>
              right
              have hc : c = 1 := run_error_code
                (show (run env dir listSourcesCmd).2.2 = .error c by
                  rw [show run env dir listSourcesCmd = (t0, d0, .error c) from hls])
              simp [main, hgv, h1, h2, h3, hls, hc]
            | ok u =>
              cases u
              cases hss : set_source inputs.choice inputs.owner inputs.customUrl with
              | error c =>
                right
                have hc : c = 1 := set_source_error_code hss
                simp [main, hgv, h1, h2, h3, hls, hss, hc]
              | ok source =>
                cases hak : set_api_key inputs.apiKey with
                | error c =>
                  right
                  have hc : c = 1 := set_api_key_error_code hak
                  simp [main, hgv, h1, h2, h3, hls, hss, hak, hc]
                | ok apiKey =>
                  rcases hbp : build_and_pack env v d0 with ⟨t1, d1, r1⟩
                  cases r1 with
                  | error c =>
                    right
                    have hc : c = 1 := build_and_pack_error_code
                      (show (build_and_pack env v d0).2.2 = .error c by rw [hbp])
                    simp [main, hgv, h1, h2, h3, hls, hss, hak, hbp, hc]
                  | ok u =>
                    cases u
                    cases hpr : (push_packages env source apiKey d1).result with
                    | error c =>
                      right
                      have hc : c = 1 := push_packages_error_code hpr
                      simp [main, hgv, h1, h2, h3, hls, hss, hak, hbp, hpr, hc]
                    | ok u =>
                      cases u
                      left
                      simp [main, hgv, h1, h2, h3, hls, hss, hak, hbp, hpr]
          · by_cases hq : lower (strip inputs.action) = "q"
            · left
              simp [main, hgv, h1, h2, h3, hq]
            · right
              simp [main, hgv, h1, h2, h3, hq]
  · intro hgv
    simp [main, hgv]
  · intro v hgv hq
    simp [main, hgv, hq]
  · intro v hgv h1 h2 h3 hq
    simp [main, hgv, h1, h2, h3, hq]
  · intro d cmd h
    simp [run, h]
  · simp [set_api_key]
  · simp [set_source, hs2, hse]
  · simp [set_source, hs3, hse]
  · intro v hgv h2 hok
    rcases hbp : build_and_pack env v dir with ⟨t, d, r⟩
    have hr : r = .ok () := by rw [hbp] at hok; exact hok
    subst hr
    simp [main, hgv, h2, hbp]

end PackPush
